import Mathlib

/-!
Verification of the UML → UM compiler (the `compiler` package of the um-32
repository).  Python functions are shallowly embedded: arbitrary-precision
Python integers become `Int`/`Nat`, Python bitwise operators become the
two's-complement bitwise operations on `Int` (`Int.land`, `Int.lor`,
`Int.lnot`, `<<<` — these agree with Python's `&`, `|`, `~`, `<<` on all
integers), fallible code returns `Except`/`Option`.
-/

namespace Um

/-! ## instructions.py: `set_bits` -/

/-- Embedding of `instructions.set_bits` (instructions.py lines 7–27):

    mask = ~(((1 << count) - 1) << start)
    return (n & mask) | (value << start)

Python `~`, `&`, `|`, `<<` on arbitrary-precision integers are exactly
`Int.lnot`, `Int.land`, `Int.lor` and `<<<` (two's complement). -/
def set_bits (n : Int) (start count : Nat) (value : Int) : Int :=
  Int.lor
    (Int.land n (Int.lnot ((((1 : Int) <<< (count : Int)) - 1) <<< (start : Int))))
    (value <<< (start : Int))

@[simp] theorem testBit_natCast (m k : Nat) :
    Int.testBit (m : Int) k = Nat.testBit m k := rfl

theorem mask_inner_eq (s c : Nat) :
    (((1 : Int) <<< (c : Int)) - 1) <<< (s : Int) = (((2 ^ c - 1) * 2 ^ s : Nat) : Int) := by
  rw [Int.one_shiftLeft]
  have h2 : (1 : Nat) ≤ 2 ^ c := Nat.one_le_two_pow
  have h1 : ((2 ^ c : Nat) : Int) - 1 = ((2 ^ c - 1 : Nat) : Int) := by
    rw [Int.natCast_sub h2]
    simp
  rw [h1, Int.shiftLeft_coe_nat, Nat.shiftLeft_eq]

/-- Per-bit behaviour of `set_bits` for an in-range `value`: the bits in
`[start, start+count)` come from `value`, every other bit comes from `n`. -/
theorem set_bits_testBit (n v : Int) (s c : Nat) (h0 : 0 ≤ v) (hv : v < 2 ^ c)
    (i : Nat) :
    (set_bits n s c v).testBit i =
      if s ≤ i ∧ i < s + c then v.testBit (i - s) else n.testBit i := by
  obtain ⟨vv, rfl⟩ := Int.eq_ofNat_of_zero_le h0
  have hvv : vv < 2 ^ c := by exact_mod_cast hv
  unfold set_bits
  rw [mask_inner_eq, Int.shiftLeft_coe_nat, Int.testBit_lor, Int.testBit_land,
    Int.testBit_lnot, testBit_natCast, testBit_natCast,
    ← Nat.shiftLeft_eq, Nat.testBit_shiftLeft, Nat.testBit_shiftLeft,
    Nat.testBit_two_pow_sub_one]
  by_cases hsi : s ≤ i
  · by_cases hic : i < s + c
    · have h1 : i - s < c := by omega
      simp [hsi, hic, h1, ge_iff_le]
    · have h1 : ¬ i - s < c := by omega
      have h2 : vv.testBit (i - s) = false :=
        Nat.testBit_eq_false_of_lt
          (lt_of_lt_of_le hvv (Nat.pow_le_pow_right (by norm_num) (by omega)))
      simp [hsi, hic, h1, h2, ge_iff_le]
  · have h1 : ¬ (s ≤ i ∧ i < s + c) := by omega
    simp [hsi, h1, ge_iff_le]

theorem zero_testBit_int (i : Nat) : (0 : Int).testBit i = false := by
  have h : (0 : Int) = ((0 : Nat) : Int) := rfl
  rw [h, testBit_natCast, Nat.zero_testBit]

/-- Rewriting `set_bits` on nonnegative inputs as a natural number. -/
theorem set_bits_natCast (nn vv : Nat) (s c : Nat) :
    set_bits (nn : Int) s c (vv : Int) =
      ((Nat.ldiff nn ((2 ^ c - 1) * 2 ^ s) ||| vv <<< s : Nat) : Int) := by
  unfold set_bits
  rw [mask_inner_eq, Int.shiftLeft_coe_nat]
  rfl

theorem set_bits_nonneg (n v : Int) (s c : Nat) (hn : 0 ≤ n) (hv : 0 ≤ v) :
    0 ≤ set_bits n s c v := by
  obtain ⟨nn, rfl⟩ := Int.eq_ofNat_of_zero_le hn
  obtain ⟨vv, rfl⟩ := Int.eq_ofNat_of_zero_le hv
  rw [set_bits_natCast]
  exact Int.natCast_nonneg _

/-! ## instructions.py: instruction words and serialization -/

/-- Embedding of `Instruction.bytes` (instructions.py lines 90–96) before the
`to_bytes` call: the 32-bit word built by the four `set_bits` calls. -/
def instruction_word (opcode a b c : Nat) : Int :=
  set_bits (set_bits (set_bits (set_bits 0 28 4 (opcode : Int)) 6 3 (a : Int)) 3 3 (b : Int))
    0 3 (c : Int)

/-- Embedding of `Orthography.bytes` (instructions.py lines 183–188) before
the `to_bytes` call; the opcode is 13. -/
def orthography_word (register value : Nat) : Int :=
  set_bits (set_bits (set_bits 0 28 4 (13 : Int)) 25 3 (register : Int)) 0 25 (value : Int)

theorem instruction_word_testBit (op a b c : Nat) (hop : op < 2 ^ 4)
    (ha : a < 2 ^ 3) (hb : b < 2 ^ 3) (hc : c < 2 ^ 3) (i : Nat) :
    (instruction_word op a b c).testBit i =
      if i < 3 then c.testBit i
      else if 3 ≤ i ∧ i < 6 then b.testBit (i - 3)
      else if 6 ≤ i ∧ i < 9 then a.testBit (i - 6)
      else if 28 ≤ i ∧ i < 32 then op.testBit (i - 28)
      else false := by
  unfold instruction_word
  rw [set_bits_testBit _ _ _ _ (Int.natCast_nonneg c) (by exact_mod_cast hc),
    set_bits_testBit _ _ _ _ (Int.natCast_nonneg b) (by exact_mod_cast hb),
    set_bits_testBit _ _ _ _ (Int.natCast_nonneg a) (by exact_mod_cast ha),
    set_bits_testBit _ _ _ _ (Int.natCast_nonneg op) (by exact_mod_cast hop)]
  simp only [testBit_natCast, zero_testBit_int]
  split_ifs <;> first | rfl | omega

theorem orthography_word_testBit (reg v : Nat) (hreg : reg < 2 ^ 3)
    (hv : v < 2 ^ 25) (i : Nat) :
    (orthography_word reg v).testBit i =
      if i < 25 then v.testBit i
      else if 25 ≤ i ∧ i < 28 then reg.testBit (i - 25)
      else if 28 ≤ i ∧ i < 32 then Nat.testBit 13 (i - 28)
      else false := by
  unfold orthography_word
  have h13 : ((13 : Nat) : Int) = (13 : Int) := by norm_num
  rw [← h13,
    set_bits_testBit _ _ _ _ (Int.natCast_nonneg v) (by exact_mod_cast hv),
    set_bits_testBit _ _ _ _ (Int.natCast_nonneg reg) (by exact_mod_cast hreg),
    set_bits_testBit _ _ _ _ (Int.natCast_nonneg 13) (by norm_num)]
  simp only [testBit_natCast, zero_testBit_int]
  split_ifs <;> first | rfl | omega

/-- Extract the field of `width` bits starting at bit `lo` from a word whose
bits in that range agree with `val`. -/
theorem extract_field {w val : Nat} (lo width : Nat) (hval : val < 2 ^ width)
    (hbits : ∀ j, j < width → w.testBit (lo + j) = val.testBit j) :
    w / 2 ^ lo % 2 ^ width = val := by
  apply Nat.eq_of_testBit_eq
  intro j
  rw [← Nat.shiftRight_eq_div_pow, Nat.testBit_mod_two_pow, Nat.testBit_shiftRight]
  by_cases hj : j < width
  · simp [hj, hbits j hj]
  · have hfalse : val.testBit j = false :=
      Nat.testBit_eq_false_of_lt
        (lt_of_lt_of_le hval (Nat.pow_le_pow_right (by norm_num) (by omega)))
    simp [hj, hfalse]

theorem lt_of_high_bits_false {w : Nat} (k : Nat)
    (h : ∀ i, k ≤ i → w.testBit i = false) : w < 2 ^ k := by
  have heq : w = w % 2 ^ k := by
    apply Nat.eq_of_testBit_eq
    intro i
    rw [Nat.testBit_mod_two_pow]
    by_cases hi : i < k
    · simp [hi]
    · simp [hi, h i (by omega)]
  have hlt : w % 2 ^ k < 2 ^ k := Nat.mod_lt _ (Nat.pos_pow_of_pos _ (by norm_num))
  omega

/-- An encodable instruction: the thirteen standard opcode classes
(`ConditionalMove` … `LoadProgram`, opcodes 0–12) all serialize through
`Instruction.bytes` from their `(opcode, a, b, c)` data, and `Orthography`
(opcode 13) through its own `bytes` from `(register, value)`. -/
inductive Instr : Type
  | standard (opcode a b c : Nat)
  | orthography (register value : Nat)
  deriving DecidableEq

/-- Well-formed operands: standard opcodes are 0–12 with 3-bit registers;
`Orthography` has a 3-bit register and a 25-bit value (its constructor
rejects `value > 2^25 - 1`, instructions.py lines 173–178). -/
def Instr.wf : Instr → Prop
  | .standard opcode a b c => opcode ≤ 12 ∧ a < 8 ∧ b < 8 ∧ c < 8
  | .orthography register value => register < 8 ∧ value ≤ 2 ^ 25 - 1

def encode_word : Instr → Int
  | .standard opcode a b c => instruction_word opcode a b c
  | .orthography register value => orthography_word register value

/-- Python `int.to_bytes(4, 'big')`: the four base-256 digits of a word
below `2^32`, most significant first. -/
def to_bytes_4_big (w : Nat) : List Nat :=
  [w / 2 ^ 24 % 256, w / 2 ^ 16 % 256, w / 2 ^ 8 % 256, w % 256]

/-- The serialized form of an instruction: `instr.bytes` in the source. -/
def instr_bytes (i : Instr) : List Nat :=
  to_bytes_4_big (encode_word i).toNat

/-- Modelled from the spec: recombine a 4-byte big-endian sequence into a
32-bit word (§4.7 "Serialization is big-endian 32-bit words"); the
repository contains no decoder. -/
def word_of_bytes : List Nat → Nat
  | [b0, b1, b2, b3] => b0 * 2 ^ 24 + b1 * 2 ^ 16 + b2 * 2 ^ 8 + b3
  | _ => 0

/-- Modelled from the spec: decode a word by the fixed field layout of §4.7
(bits 28–31 opcode; for standard ops bits 6–8 A, 3–5 B, 0–2 C; for
Orthography bits 25–27 register, 0–24 value). -/
def decode_word (w : Nat) : Option Instr :=
  let opcode := w / 2 ^ 28 % 2 ^ 4
  if opcode = 13 then some (.orthography (w / 2 ^ 25 % 2 ^ 3) (w / 2 ^ 0 % 2 ^ 25))
  else if opcode ≤ 12 then
    some (.standard opcode (w / 2 ^ 6 % 2 ^ 3) (w / 2 ^ 3 % 2 ^ 3) (w / 2 ^ 0 % 2 ^ 3))
  else none

def decode_bytes (bs : List Nat) : Option Instr :=
  decode_word (word_of_bytes bs)

theorem word_of_to_bytes (w : Nat) (h : w < 2 ^ 32) :
    word_of_bytes (to_bytes_4_big w) = w := by
  simp only [to_bytes_4_big, word_of_bytes]
  omega

theorem toNat_testBit (x : Int) (h : 0 ≤ x) (i : Nat) :
    x.toNat.testBit i = x.testBit i := by
  rw [← testBit_natCast, Int.toNat_of_nonneg h]

theorem instruction_word_nonneg (op a b c : Nat) : 0 ≤ instruction_word op a b c := by
  unfold instruction_word
  have h0 : (0 : Int) = ((0 : Nat) : Int) := rfl
  refine set_bits_nonneg _ _ _ _ ?_ (Int.natCast_nonneg c)
  refine set_bits_nonneg _ _ _ _ ?_ (Int.natCast_nonneg b)
  refine set_bits_nonneg _ _ _ _ ?_ (Int.natCast_nonneg a)
  exact set_bits_nonneg _ _ _ _ (by norm_num) (Int.natCast_nonneg op)

theorem orthography_word_nonneg (reg v : Nat) : 0 ≤ orthography_word reg v := by
  unfold orthography_word
  refine set_bits_nonneg _ _ _ _ ?_ (Int.natCast_nonneg v)
  refine set_bits_nonneg _ _ _ _ ?_ (Int.natCast_nonneg reg)
  exact set_bits_nonneg _ _ _ _ (by norm_num) (by norm_num)

/-- C6.  Instruction encoding round-trips: for every standard opcode
(0..12) with register operands in 0..7 the 4-byte big-endian encoding
places the opcode in bits 28..31, `a` in bits 6..8, `b` in bits 3..5 and
`c` in bits 0..2; for Orthography (opcode 13) the register sits in bits
25..27 and the value in bits 0..24; decoding those fields from the encoded
word recovers the original instruction for all 14 opcodes. -/
theorem C6_encode_decode_roundtrip (ins : Instr) (h : ins.wf) :
    decode_bytes (instr_bytes ins) = some ins := by
  have hpow3 : (8 : Nat) = 2 ^ 3 := by norm_num
  cases ins with
  | standard op a b c =>
    obtain ⟨hop, ha, hb, hc⟩ := h
    have hop16 : op < 2 ^ 4 := Nat.lt_of_le_of_lt hop (by norm_num)
    have hchar := instruction_word_testBit op a b c hop16 (hpow3 ▸ ha)
      (hpow3 ▸ hb) (hpow3 ▸ hc)
    have hnn := instruction_word_nonneg op a b c
    have hbit : ∀ i, (instruction_word op a b c).toNat.testBit i =
        (instruction_word op a b c).testBit i := toNat_testBit _ hnn
    have hlt : (instruction_word op a b c).toNat < 2 ^ 32 := by
      refine lt_of_high_bits_false 32 fun i hi => ?_
      rw [hbit, hchar]
      have h1 : ¬ i < 3 := by omega
      have h2 : ¬ (3 ≤ i ∧ i < 6) := by omega
      have h3 : ¬ (6 ≤ i ∧ i < 9) := by omega
      have h4 : ¬ (28 ≤ i ∧ i < 32) := by omega
      simp [h1, h2, h3, h4]
    have hopf : (instruction_word op a b c).toNat / 2 ^ 28 % 2 ^ 4 = op := by
      refine extract_field 28 4 hop16 fun j hj => ?_
      rw [hbit, hchar]
      have h1 : ¬ 28 + j < 3 := by omega
      have h2 : ¬ (3 ≤ 28 + j ∧ 28 + j < 6) := by omega
      have h3 : ¬ (6 ≤ 28 + j ∧ 28 + j < 9) := by omega
      have h4 : 28 ≤ 28 + j ∧ 28 + j < 32 := by omega
      have h5 : 28 + j - 28 = j := by omega
      simp [h1, h2, h3, h4, h5]
    have haf : (instruction_word op a b c).toNat / 2 ^ 6 % 2 ^ 3 = a := by
      refine extract_field 6 3 (hpow3 ▸ ha) fun j hj => ?_
      rw [hbit, hchar]
      have h1 : ¬ 6 + j < 3 := by omega
      have h2 : ¬ (3 ≤ 6 + j ∧ 6 + j < 6) := by omega
      have h3 : 6 ≤ 6 + j ∧ 6 + j < 9 := by omega
      have h5 : 6 + j - 6 = j := by omega
      simp [h1, h2, h3, h5]
    have hbf : (instruction_word op a b c).toNat / 2 ^ 3 % 2 ^ 3 = b := by
      refine extract_field 3 3 (hpow3 ▸ hb) fun j hj => ?_
      rw [hbit, hchar]
      have h1 : ¬ 3 + j < 3 := by omega
      have h2 : 3 ≤ 3 + j ∧ 3 + j < 6 := by omega
      have h5 : 3 + j - 3 = j := by omega
      simp [h1, h2, h5]
    have hcf : (instruction_word op a b c).toNat / 2 ^ 0 % 2 ^ 3 = c := by
      refine extract_field 0 3 (hpow3 ▸ hc) fun j hj => ?_
      have h5 : 0 + j = j := by omega
      rw [h5, hbit, hchar]
      simp [hj]
    have hne13 : ¬ op = 13 := by omega
    show decode_word (word_of_bytes (to_bytes_4_big (instruction_word op a b c).toNat))
      = some (Instr.standard op a b c)
    rw [word_of_to_bytes _ hlt]
    simp only [decode_word, hopf, haf, hbf, hcf, hne13, if_false, hop, if_true]
  | orthography reg v =>
    obtain ⟨hreg, hv⟩ := h
    have hv25 : v < 2 ^ 25 := by omega
    have hchar := orthography_word_testBit reg v (hpow3 ▸ hreg) hv25
    have hnn := orthography_word_nonneg reg v
    have hbit : ∀ i, (orthography_word reg v).toNat.testBit i =
        (orthography_word reg v).testBit i := toNat_testBit _ hnn
    have hlt : (orthography_word reg v).toNat < 2 ^ 32 := by
      refine lt_of_high_bits_false 32 fun i hi => ?_
      rw [hbit, hchar]
      have h1 : ¬ i < 25 := by omega
      have h2 : ¬ (25 ≤ i ∧ i < 28) := by omega
      have h3 : ¬ (28 ≤ i ∧ i < 32) := by omega
      simp [h1, h2, h3]
    have hopf : (orthography_word reg v).toNat / 2 ^ 28 % 2 ^ 4 = 13 := by
      refine extract_field 28 4 (by norm_num) fun j hj => ?_
      rw [hbit, hchar]
      have h1 : ¬ 28 + j < 25 := by omega
      have h2 : ¬ (25 ≤ 28 + j ∧ 28 + j < 28) := by omega
      have h3 : 28 ≤ 28 + j ∧ 28 + j < 32 := by omega
      have h5 : 28 + j - 28 = j := by omega
      simp [h1, h2, h3, h5]
    have hregf : (orthography_word reg v).toNat / 2 ^ 25 % 2 ^ 3 = reg := by
      refine extract_field 25 3 (hpow3 ▸ hreg) fun j hj => ?_
      rw [hbit, hchar]
      have h1 : ¬ 25 + j < 25 := by omega
      have h2 : 25 ≤ 25 + j ∧ 25 + j < 28 := by omega
      have h5 : 25 + j - 25 = j := by omega
      simp [h1, h2, h5]
    have hvf : (orthography_word reg v).toNat / 2 ^ 0 % 2 ^ 25 = v := by
      refine extract_field 0 25 hv25 fun j hj => ?_
      have h5 : 0 + j = j := by omega
      rw [h5, hbit, hchar]
      simp [hj]
    show decode_word (word_of_bytes (to_bytes_4_big (orthography_word reg v).toNat))
      = some (Instr.orthography reg v)
    rw [word_of_to_bytes _ hlt]
    simp only [decode_word, hopf, hregf, hvf, if_true]

/-- Witness for C6: the round-trip evaluated at a concrete `Addition` (opcode
3) instruction and a concrete `Orthography`. -/
theorem C6_encode_decode_roundtrip_witness :
    decode_bytes (instr_bytes (Instr.standard 3 1 2 7)) = some (Instr.standard 3 1 2 7) ∧
      decode_bytes (instr_bytes (Instr.orthography 5 33554431)) =
        some (Instr.orthography 5 33554431) :=
  ⟨C6_encode_decode_roundtrip (Instr.standard 3 1 2 7) (by constructor <;> norm_num),
    C6_encode_decode_roundtrip (Instr.orthography 5 33554431) (by constructor <;> norm_num)⟩

/-- C10.  For every integer `n`, every `start`, `count`, and every value
with `0 ≤ value < 2^count`, `set_bits n start count value` has the bits of
`value` in `[start, start+count)` and the bits of `n` elsewhere; and the
precondition is necessary because the function does not mask `value`: a
wider value spills into higher bit positions (here `value = 8` with
`count = 3` sets bit 3, which lies outside `[0, 3)` and differs from bit 3
of `n = 0`). -/
theorem C10_set_bits_field_update :
    (∀ (n v : Int) (start count : Nat), 0 ≤ v → v < 2 ^ count → ∀ i : Nat,
        (set_bits n start count v).testBit i =
          if start ≤ i ∧ i < start + count then v.testBit (i - start)
          else n.testBit i) ∧
      (set_bits 0 0 3 8).testBit 3 = true ∧ (0 : Int).testBit 3 = false := by
  refine ⟨fun n v s c h0 hv i => set_bits_testBit n v s c h0 hv i, ?_, ?_⟩
  · have h0 : (0 : Int) = ((0 : Nat) : Int) := rfl
    have h8 : (8 : Int) = ((8 : Nat) : Int) := rfl
    rw [h0, h8, set_bits_natCast, testBit_natCast, Nat.testBit_lor]
    have hsl : (8 <<< 0 : Nat).testBit 3 = true := by
      rw [Nat.shiftLeft_eq]
      have h : (8 * 2 ^ 0 : Nat) = 8 := by norm_num
      rw [h]
      decide
    rw [hsl, Bool.or_true]
  · rw [zero_testBit_int]

/-- Witness for C10: bit 1 of `set_bits 5 1 2 3` is bit 0 of the value 3. -/
theorem C10_set_bits_field_update_witness :
    (set_bits 5 1 2 3).testBit 1 = true := by
  have h := C10_set_bits_field_update.1 5 3 1 2 (by norm_num) (by norm_num) 1
  rw [h, if_pos (by omega : (1 : Nat) ≤ 1 ∧ 1 < 1 + 2)]
  have h3 : (3 : Int) = ((3 : Nat) : Int) := rfl
  have h0 : (1 - 1 : Nat) = 0 := rfl
  rw [h0, h3, testBit_natCast]
  decide


/-! ## instructions.py: low-level IR instructions and the `Immediate` expansion

Registers carry their `runtime_constants.Register` values:
`ax = 0, bx = 1, cx = 2, dx = 3, locals = 4, pic_table = 5, stack = 6,
stack_top = 7`. -/

/-- The native instructions emitted by the expansions the claims touch. -/
inductive LLInstr : Type
  | orthography (register value : Nat)
  | addition (a b c : Nat)
  | multiplication (a b c : Nat)
  | division (a b c : Nat)
  deriving DecidableEq

/-- Embedding of `Orthography.max_value = 2 ** 25 - 1` (instructions.py
line 171). -/
def max_value : Nat := 2 ^ 25 - 1

/-- The loop of `Immediate.low_level_instructions` (instructions.py lines
216–224) run on what remains of `value` after the first chunk: while the
remainder exceeds `max_value` emit `Orthography(acc, max_value);
Addition(register, register, acc)` and subtract; then, if a nonzero
remainder is left, emit it as a final partial chunk. -/
def immediate_loop (register acc : Nat) (value : Nat) : List LLInstr :=
  if value > max_value then
    .orthography acc max_value :: .addition register register acc ::
      immediate_loop register acc (value - max_value)
  else if value ≠ 0 then
    [.orthography acc value, .addition register register acc]
  else []
termination_by value
decreasing_by
  have hpos : 0 < max_value := by norm_num [max_value]
  omega

/-- Embedding of `Immediate.low_level_instructions` (instructions.py lines
205–224): a single `Orthography` when the value fits in 25 bits, otherwise
`Orthography(register, max_value)` followed by the accumulation loop using
`acc = bx` (register 1) unless the target is `bx`, in which case `ax`
(register 0). -/
def immediate_low_level (register value : Nat) : List LLInstr :=
  if value ≤ max_value then [.orthography register value]
  else
    .orthography register max_value ::
      immediate_loop register (if register ≠ 1 then 1 else 0) (value - max_value)

/-- Modelled from the spec: the UM semantics of the opcodes used by the
expansion (§4.7 and the glossary; the VM itself is not part of this
repository): `Orthography` loads its value into its register, `Addition`
stores the sum of two registers modulo `2^32`, and analogously for the
other arithmetic opcodes. -/
def step (regs : Nat → Nat) : LLInstr → (Nat → Nat)
  | .orthography r v => Function.update regs r v
  | .addition a b c => Function.update regs a ((regs b + regs c) % 2 ^ 32)
  | .multiplication a b c => Function.update regs a ((regs b * regs c) % 2 ^ 32)
  | .division a b c => Function.update regs a (regs b / regs c)

def run (instrs : List LLInstr) (regs : Nat → Nat) : Nat → Nat :=
  instrs.foldl step regs

theorem run_nil (regs : Nat → Nat) : run [] regs = regs := rfl

theorem run_cons (i : LLInstr) (l : List LLInstr) (regs : Nat → Nat) :
    run (i :: l) regs = run l (step regs i) := rfl

/-- The values carried by the `Orthography` instructions of a sequence. -/
def orth_payloads : List LLInstr → List Nat
  | [] => []
  | .orthography _ v :: rest => v :: orth_payloads rest
  | .addition _ _ _ :: rest => orth_payloads rest
  | .multiplication _ _ _ :: rest => orth_payloads rest
  | .division _ _ _ :: rest => orth_payloads rest

theorem orth_payloads_cons_orth (r v : Nat) (t : List LLInstr) :
    orth_payloads (.orthography r v :: t) = v :: orth_payloads t := rfl

theorem orth_payloads_cons_add (a b c : Nat) (t : List LLInstr) :
    orth_payloads (.addition a b c :: t) = orth_payloads t := rfl

theorem run_immediate_loop (register acc : Nat) (hne : register ≠ acc)
    (value : Nat) :
    ∀ regs : Nat → Nat, regs register + value < 2 ^ 32 →
      run (immediate_loop register acc value) regs register =
        regs register + value := by
  have hmax : 0 < max_value := by norm_num [max_value]
  induction value using Nat.strong_induction_on with
  | _ value ih =>
    intro regs hsum
    rw [immediate_loop]
    by_cases h : value > max_value
    · rw [if_pos h]
      have hR1reg : Function.update regs acc max_value register = regs register :=
        Function.update_noteq hne _ _
      have hR1acc : Function.update regs acc max_value acc = max_value :=
        Function.update_same _ _ _
      have hupd : step (step regs (.orthography acc max_value))
          (.addition register register acc) =
            Function.update (Function.update regs acc max_value) register
              (regs register + max_value) := by
        simp only [step, hR1reg, hR1acc]
        rw [Nat.mod_eq_of_lt (by omega)]
      rw [run_cons, run_cons, hupd, ih (value - max_value) (by omega) _
        (by rw [Function.update_same]; omega), Function.update_same]
      omega
    · rw [if_neg h]
      by_cases hz : value ≠ 0
      · rw [if_pos hz]
        have e1 : Function.update regs acc value register = regs register :=
          Function.update_noteq hne _ _
        rw [run_cons, run_cons, run_nil]
        simp only [step, e1, Function.update_same]
        exact Nat.mod_eq_of_lt (by omega)
      · rw [if_neg hz, run_nil]
        omega

/-- All `Orthography` payloads emitted by the loop stay within 25 bits. -/
theorem orth_payloads_immediate_loop (register acc : Nat) (value : Nat) :
    ∀ p ∈ orth_payloads (immediate_loop register acc value), p ≤ max_value := by
  have hmax : 0 < max_value := by norm_num [max_value]
  induction value using Nat.strong_induction_on with
  | _ value ih =>
    intro p hp
    rw [immediate_loop] at hp
    by_cases h : value > max_value
    · rw [if_pos h, orth_payloads_cons_orth, orth_payloads_cons_add] at hp
      rcases List.mem_cons.mp hp with he | hrest
      · omega
      · exact ih (value - max_value) (by omega) p hrest
    · rw [if_neg h] at hp
      by_cases hz : value ≠ 0
      · rw [if_pos hz, orth_payloads_cons_orth, orth_payloads_cons_add] at hp
        rcases List.mem_cons.mp hp with he | hrest
        · omega
        · cases hrest
      · rw [if_neg hz] at hp
        cases hp

/-- C5.  For every register `R` and every `0 ≤ V < 2^32` the low-level
expansion of `Immediate(R, V)` leaves exactly `V` in `R`: one
`Orthography(R, V)` when `V ≤ 2^25 - 1`, otherwise `Orthography(R, 2^25-1)`
followed by `Orthography(acc, chunk); Addition(R, R, acc)` pairs whose
chunks sum with the first to `V`; every `Orthography` payload is at most
`2^25 - 1`. -/
theorem C5_immediate_expansion :
    (∀ register value : Nat, value ≤ max_value →
        immediate_low_level register value = [.orthography register value]) ∧
      (∀ register value : Nat, value < 2 ^ 32 → ∀ regs : Nat → Nat,
        run (immediate_low_level register value) regs register = value) ∧
      ∀ register value : Nat,
        ∀ p ∈ orth_payloads (immediate_low_level register value), p ≤ max_value := by
  have hmax : 0 < max_value := by norm_num [max_value]
  refine ⟨fun register value h => by rw [immediate_low_level, if_pos h], ?_, ?_⟩
  · intro register value hv regs
    rw [immediate_low_level]
    by_cases h : value ≤ max_value
    · rw [if_pos h, run_cons, run_nil]
      simp only [step]
      rw [Function.update_same]
    · rw [if_neg h]
      have hne : register ≠ (if register ≠ 1 then 1 else 0) := by
        by_cases h1 : register = 1 <;> simp [h1]
      rw [run_cons]
      simp only [step]
      rw [run_immediate_loop register _ hne (value - max_value) _
        (by rw [Function.update_same]; omega), Function.update_same]
      omega
  · intro register value p hp
    rw [immediate_low_level] at hp
    by_cases h : value ≤ max_value
    · rw [if_pos h, orth_payloads_cons_orth] at hp
      rcases List.mem_cons.mp hp with he | hrest
      · omega
      · cases hrest
    · rw [if_neg h, orth_payloads_cons_orth] at hp
      rcases List.mem_cons.mp hp with he | hrest
      · omega
      · exact orth_payloads_immediate_loop register _ (value - max_value) p hrest

/-- Witness for C5 at concrete inputs: a value one above the 25-bit limit
run from the zero register file, and the small-value shape. -/
theorem C5_immediate_expansion_witness :
    run (immediate_low_level 3 33554432) (fun _ => 0) 3 = 33554432 ∧
      immediate_low_level 0 7 = [.orthography 0 7] :=
  ⟨C5_immediate_expansion.2.1 3 33554432 (by norm_num) (fun _ => 0),
    C5_immediate_expansion.1 0 7 (by norm_num [max_value])⟩

/-! ## ast.py and compiler.py: binary operators -/

/-- The host-syntax operator classes keyed by
`_FunctionTranslator._binoptable` (ast.py lines 338–343). -/
inductive PyBinOp : Type
  | add
  | sub
  | mult
  | div
  deriving DecidableEq

/-- Embedding of `_binoptable` (ast.py lines 338–343): the operator symbol
the frontend records for each accepted host operator; `visit_BinOp` rejects
any operator not in this table and otherwise emits `BinOp(op, lhs, rhs)`. -/
def binoptable : PyBinOp → String
  | .add => "+"
  | .sub => "-"
  | .mult => "*"
  | .div => "/"

/-- Embedding of the operator dispatch inside `_binop` (compiler.py lines
377–390): `+`, `*` and `/` emit the corresponding native instruction
computing into the lhs register; every other operator raises
`NotImplementedError(f-string of "op .. not supported")`. -/
def binop_instruction (op : String) (lhs rhs : Nat) : Except String LLInstr :=
  if op = "+" then .ok (.addition lhs lhs rhs)
  else if op = "*" then .ok (.multiplication lhs lhs rhs)
  else if op = "/" then .ok (.division lhs lhs rhs)
  else .error ("op " ++ op ++ " not supported")

/-- C1 (refuted as stated — code bug): the frontend dispatch table declares
the subtraction operator, but `_binop` has no case for it, so compiling any
subtraction fails with NotImplementedError instead of emitting the
two's-complement addition `a + (~b + 1) mod 2^32`; only the other three
operators succeed. -/
theorem C1_binop_subtraction_not_compiled :
    binoptable PyBinOp.sub = "-" ∧
      binop_instruction "-" 0 1 = Except.error "op - not supported" ∧
      binop_instruction "+" 0 1 = Except.ok (.addition 0 0 1) ∧
      binop_instruction "*" 0 1 = Except.ok (.multiplication 0 0 1) ∧
      binop_instruction "/" 0 1 = Except.ok (.division 0 0 1) := by
  refine ⟨rfl, ?_, ?_, ?_, ?_⟩ <;> simp [binop_instruction]

/-! ## ast.py: the IR node type -/

/-- The IR node classes of ast.py (lines 22–137).  Types are the strings
`"uint"`, `"array"`, `"void"` as in the source. -/
inductive Node : Type
  | ArrayLiteral (value : List Nat)
  | UIntLiteral (value : Nat)
  | For (target : Node) (iterator : Node) (body : List Node)
  | Assignment (lhs rhs : Node)
  | FunctionDef (name : String) (args : List Node) (locals : List Node)
      (body : List Node) (return_type : String)
  | Return (value : Option Node)
  | Argument (name : String) (type : String)
  | Local (name : String) (type : String)
  | Global (name : String) (type : String) (value : Node)
  | Call (function : String) (args : List Node) (type : String)
  | BuiltinCall (name : String) (args : List Node) (type : String)
  | BinOp (op : String) (lhs rhs : Node)
  | UnOp (op : String) (operand : Node)
  | Subscript (array index : Node)
  | IfBranch (body : List Node)
  | If (test : Node) (true_branch false_branch : Node)

mutual

/-- Embedding of IR-node equality (ast.py lines 7–137): `FunctionDef`,
`Argument`, `Local` and `Global` override `__eq__` to compare by `name`
alone; every other kind falls back to `Node.__eq__`, which compares the
slot dictionaries (structural equality).  Two nodes of different kinds are
never equal: the name-identity kinds return NotImplemented on a foreign
kind, and for the remaining kinds no two distinct classes can produce
equal slot dictionaries on representable values (the only shared slot
tuple is `("value",)`, where `ArrayLiteral` holds a tuple, `UIntLiteral`
an integer and `Return` a node or None). -/
def node_eq : Node → Node → Bool
  | .FunctionDef n1 _ _ _ _, b =>
    match b with
    | .FunctionDef n2 _ _ _ _ => n1 == n2
    | _ => false
  | .Argument n1 _, b =>
    match b with
    | .Argument n2 _ => n1 == n2
    | _ => false
  | .Local n1 _, b =>
    match b with
    | .Local n2 _ => n1 == n2
    | _ => false
  | .Global n1 _ _, b =>
    match b with
    | .Global n2 _ _ => n1 == n2
    | _ => false
  | .ArrayLiteral v1, b =>
    match b with
    | .ArrayLiteral v2 => v1 == v2
    | _ => false
  | .UIntLiteral v1, b =>
    match b with
    | .UIntLiteral v2 => v1 == v2
    | _ => false
  | .For t1 i1 b1, b =>
    match b with
    | .For t2 i2 b2 => node_eq t1 t2 && node_eq i1 i2 && node_list_eq b1 b2
    | _ => false
  | .Assignment l1 r1, b =>
    match b with
    | .Assignment l2 r2 => node_eq l1 l2 && node_eq r1 r2
    | _ => false
  | .Return v1, b =>
    match b with
    | .Return v2 => node_opt_eq v1 v2
    | _ => false
  | .Call f1 a1 t1, b =>
    match b with
    | .Call f2 a2 t2 => f1 == f2 && node_list_eq a1 a2 && t1 == t2
    | _ => false
  | .BuiltinCall f1 a1 t1, b =>
    match b with
    | .BuiltinCall f2 a2 t2 => f1 == f2 && node_list_eq a1 a2 && t1 == t2
    | _ => false
  | .BinOp o1 l1 r1, b =>
    match b with
    | .BinOp o2 l2 r2 => o1 == o2 && node_eq l1 l2 && node_eq r1 r2
    | _ => false
  | .UnOp o1 e1, b =>
    match b with
    | .UnOp o2 e2 => o1 == o2 && node_eq e1 e2
    | _ => false
  | .Subscript a1 i1, b =>
    match b with
    | .Subscript a2 i2 => node_eq a1 a2 && node_eq i1 i2
    | _ => false
  | .IfBranch b1, b =>
    match b with
    | .IfBranch b2 => node_list_eq b1 b2
    | _ => false
  | .If t1 a1 b1, b =>
    match b with
    | .If t2 a2 b2 => node_eq t1 t2 && node_eq a1 a2 && node_eq b1 b2
    | _ => false

def node_list_eq : List Node → List Node → Bool
  | [], [] => true
  | x :: xs, y :: ys => node_eq x y && node_list_eq xs ys
  | _, _ => false

def node_opt_eq : Option Node → Option Node → Bool
  | none, none => true
  | some x, some y => node_eq x y
  | _, _ => false

end

/-- Python dict lookup keyed on IR nodes (insertion-ordered association
list, keys compared with `node_eq`): the read side of
`Context.static_allocations`. -/
def lookup_static (allocs : List (Node × Nat)) (k : Node) : Option Nat :=
  (allocs.find? fun p => node_eq p.1 k).map Prod.snd

/-- C8.  IR-node equality is structural (same kind, equal fields) except
that `FunctionDef`, `Argument`, `Local` and `Global` compare by name
alone, so two `FunctionDef` values with the same name are equal whatever
their args, locals, body or return type; this name identity is what lets
`_call` (compiler.py lines 178–189) find a function's static-allocation
index with a freshly built `FunctionDef` carrying only the name (and empty
tuples for every other field). -/
theorem C8_node_identity :
    (∀ (name : String) (a1 l1 b1 : List Node) (r1 : String)
        (a2 l2 b2 : List Node) (r2 : String),
      node_eq (.FunctionDef name a1 l1 b1 r1) (.FunctionDef name a2 l2 b2 r2) = true) ∧
      (∀ name t1 t2 : String, node_eq (.Argument name t1) (.Argument name t2) = true) ∧
      (∀ (name t1 t2 : String) (v1 v2 : Node),
        node_eq (.Local name t1) (.Local name t2) = true ∧
          node_eq (.Global name t1 v1) (.Global name t2 v2) = true) ∧
      (∀ v1 v2 : Nat, node_eq (.UIntLiteral v1) (.UIntLiteral v2) = true ↔ v1 = v2) ∧
      (∀ (o1 : String) (l1 r1 : Node) (o2 : String) (l2 r2 : Node),
        node_eq (.BinOp o1 l1 r1) (.BinOp o2 l2 r2) =
          (o1 == o2 && node_eq l1 l2 && node_eq r1 r2)) ∧
      (∀ (v : Nat) (name : String),
        node_eq (.UIntLiteral v) (.FunctionDef name [] [] [] "uint") = false) ∧
      ∀ (pre post : List (Node × Nat)) (name : String)
        (args locs body : List Node) (rt ty : String) (ix : Nat),
        (∀ p ∈ pre, node_eq p.1 (.FunctionDef name [] [] [] ty) = false) →
        lookup_static (pre ++ (Node.FunctionDef name args locs body rt, ix) :: post)
          (.FunctionDef name [] [] [] ty) = some ix := by
  refine ⟨fun name a1 l1 b1 r1 a2 l2 b2 r2 => by simp [node_eq],
    fun name t1 t2 => by simp [node_eq],
    fun name t1 t2 v1 v2 => ⟨by simp [node_eq], by simp [node_eq]⟩,
    fun v1 v2 => by simp [node_eq],
    fun o1 l1 r1 o2 l2 r2 => by simp [node_eq],
    fun v name => by simp [node_eq],
    ?_⟩
  intro pre post name args locs body rt ty ix h
  induction pre with
  | nil =>
    have hpos : node_eq (Node.FunctionDef name args locs body rt)
        (Node.FunctionDef name [] [] [] ty) = true := by simp [node_eq]
    have hfind : List.find?
        (fun q : Node × Nat => node_eq q.1 (Node.FunctionDef name [] [] [] ty))
        ((Node.FunctionDef name args locs body rt, ix) :: post) =
          some (Node.FunctionDef name args locs body rt, ix) :=
      List.find?_cons_of_pos post hpos
    unfold lookup_static
    rw [List.nil_append, hfind]
    rfl
  | cons q rest ih =>
    have hneg : node_eq q.1 (Node.FunctionDef name [] [] [] ty) = false :=
      h q (List.mem_cons_self q rest)
    have hrest : ∀ r ∈ rest, node_eq r.1 (Node.FunctionDef name [] [] [] ty) = false :=
      fun r hr => h r (List.mem_cons_of_mem q hr)
    have hstep := ih hrest
    have hfind : List.find?
        (fun r : Node × Nat => node_eq r.1 (Node.FunctionDef name [] [] [] ty))
        (q :: (rest ++ (Node.FunctionDef name args locs body rt, ix) :: post)) =
          List.find?
            (fun r : Node × Nat => node_eq r.1 (Node.FunctionDef name [] [] [] ty))
            (rest ++ (Node.FunctionDef name args locs body rt, ix) :: post) :=
      List.find?_cons_of_neg _ (by simp [hneg])
    unfold lookup_static at hstep ⊢
    rw [List.cons_append, hfind]
    exact hstep

/-- Witness for C8: the lookup finds `main` past a non-matching entry, with
a fresh `FunctionDef` that carries none of the stored fields. -/
theorem C8_node_identity_witness :
    lookup_static [(Node.UIntLiteral 7, 0),
        (Node.FunctionDef "main" [Node.Argument "x" "uint"] [] [] "uint", 1)]
      (Node.FunctionDef "main" [] [] [] "uint") = some 1 := by
  have h := C8_node_identity.2.2.2.2.2.2 [(Node.UIntLiteral 7, 0)] []
    "main" [Node.Argument "x" "uint"] [] [] "uint" "uint" 1
    (by intro p hp
        simp only [List.mem_singleton] at hp
        subst hp
        simp [node_eq])
  simpa using h

/-! ## compiler.py: the static allocator -/

/-- The filter of `_static_allocations_without_literal_arrays` (compiler.py
lines 11–16): array `Global`s and `FunctionDef`s. -/
def is_static_allocation : Node → Bool
  | .Global _ ty _ => ty == "array"
  | .FunctionDef _ _ _ _ _ => true
  | _ => false

/-- Embedding of `_static_allocations_without_literal_arrays` (compiler.py
lines 11–16): `for n, node in enumerate(nodes): if ...: yield node, n` —
the index paired with each allocatable node is its position among ALL
top-level nodes. -/
def static_allocations_without_literal_arrays (nodes : List Node) : List (Node × Nat) :=
  nodes.enum.filterMap fun p =>
    if is_static_allocation p.2 then some (p.2, p.1) else none

/-- Embedding of `Context.static_address` (compiler.py lines 83–87):
`self.static_allocations.setdefault(node, len(self.static_allocations))` —
return the stored index, or insert the node with index `len(dict)`. -/
def static_address (allocs : List (Node × Nat)) (node : Node) :
    List (Node × Nat) × Nat :=
  match lookup_static allocs node with
  | some ix => (allocs, ix)
  | none => (allocs ++ [(node, allocs.length)], allocs.length)

/-- The bootstrap (`_write_static_allocations`, compiler.py lines 434–505)
allocates PIC_TABLE with size `len(static_allocations)` (lines 435–437) and
amends each allocation's array handle at its stored index (lines 488–490). -/
def bootstrap_pic_table_size (allocs : List (Node × Nat)) : Nat :=
  allocs.length

def bootstrap_pic_write_indices (allocs : List (Node × Nat)) : List Nat :=
  allocs.map Prod.snd

/-- The failing module for C2: a `uint` global followed by `main`. -/
def c2_nodes : List Node :=
  [Node.Global "g" "uint" (.UIntLiteral 0), Node.FunctionDef "main" [] [] [] "uint"]

/-- C2 (refuted as stated — code bug): `enumerate` indices count ALL
top-level nodes, so with a `uint` global (which gets no PIC slot) in front,
`main` is assigned PIC index 1 while the table has a single entry: the
bootstrap allocates PIC_TABLE of size `N = 1` and then amends slot 1, one
past the end; a lazily upserted `ArrayLiteral` also receives index
`len(dict) = 1`, colliding with `main`. -/
theorem C2_pic_index_not_below_table_size :
    static_allocations_without_literal_arrays c2_nodes =
        [(Node.FunctionDef "main" [] [] [] "uint", 1)] ∧
      bootstrap_pic_table_size (static_allocations_without_literal_arrays c2_nodes) = 1 ∧
      ¬ 1 < bootstrap_pic_table_size (static_allocations_without_literal_arrays c2_nodes) ∧
      bootstrap_pic_write_indices (static_allocations_without_literal_arrays c2_nodes) = [1] ∧
      (static_address (static_allocations_without_literal_arrays c2_nodes)
          (.ArrayLiteral [104])).2 = 1 := by
  have halloc : static_allocations_without_literal_arrays c2_nodes =
      [(Node.FunctionDef "main" [] [] [] "uint", 1)] := by
    simp [static_allocations_without_literal_arrays, c2_nodes, List.enum,
      List.enumFrom, is_static_allocation]
  refine ⟨halloc, by rw [halloc]; rfl, by rw [halloc]; simp [bootstrap_pic_table_size],
    by rw [halloc]; rfl, ?_⟩
  rw [halloc]
  have hnone : lookup_static [(Node.FunctionDef "main" [] [] [] "uint", 1)]
      (.ArrayLiteral [104]) = none := by
    simp [lookup_static, List.find?, node_eq]
  simp [static_address, hnone]

/-! ## compiler.py: the statement dispatcher -/

/-- The Python class name of each IR node kind (used by the
NotImplementedError message of the `compile_node` default). -/
def node_class_name : Node → String
  | .ArrayLiteral _ => "ArrayLiteral"
  | .UIntLiteral _ => "UIntLiteral"
  | .For _ _ _ => "For"
  | .Assignment _ _ => "Assignment"
  | .FunctionDef _ _ _ _ _ => "FunctionDef"
  | .Return _ => "Return"
  | .Argument _ _ => "Argument"
  | .Local _ _ => "Local"
  | .Global _ _ _ => "Global"
  | .Call _ _ _ => "Call"
  | .BuiltinCall _ _ _ => "BuiltinCall"
  | .BinOp _ _ _ => "BinOp"
  | .UnOp _ _ => "UnOp"
  | .Subscript _ _ => "Subscript"
  | .IfBranch _ => "IfBranch"
  | .If _ _ _ => "If"

/-- The `compile_node` dispatch table (compiler.py): `singledispatch`
handlers are registered for `FunctionDef` (line 106), `Call` (line 151),
`Return` (line 212), `BuiltinCall` (line 344) and `Assignment` (line 426)
only; the default handler (lines 99–103) raises
`NotImplementedError(f-string of "cannot compile node of type ..")`. -/
def compile_node_dispatch : Node → Except String Unit
  | .FunctionDef _ _ _ _ _ => .ok ()
  | .Call _ _ _ => .ok ()
  | .Return _ => .ok ()
  | .BuiltinCall _ _ _ => .ok ()
  | .Assignment _ _ => .ok ()
  | n => .error ("cannot compile node of type " ++ node_class_name n)

/-- C4 (refuted as stated — code bug): `compile_node` has no registered
handler for `If`, so compiling any `If` statement raises
NotImplementedError instead of emitting the conditional-jump scheme the
spec describes (the frontend does build `If` nodes, `visit_If`, ast.py
lines 506–533, and instructions.py even defines `JumpIfTrue`/`JumpIfFalse`,
lines 382–401, which nothing calls). -/
theorem C4_if_statement_not_compilable :
    ∀ test true_branch false_branch : Node,
      compile_node_dispatch (.If test true_branch false_branch) =
        Except.error "cannot compile node of type If" :=
  fun _ _ _ => rfl

/-! ## ast.py: `visit_Return` with a missing value -/

/-- The attribute names an instance of `_FunctionTranslator` actually has,
set along its `__init__` chain (ast.py lines 141–146 and 329–333): the
declared return type is stored as `_return_type` (line 333). -/
def function_translator_attrs : List String :=
  ["globals", "functions", "body", "filename", "lines", "namespace",
    "_return_type"]

/-- Embedding of the `node.value is None` branch of `visit_Return` (ast.py
lines 392–399).  The branch reads `self.return_type` (lines 393 and 395),
an attribute that does not exist — `__init__` stores `_return_type` — so
the lookup raises AttributeError; were it to proceed, the `void` arm calls
`self.body.Append` (line 398), which also does not exist on a list. -/
def visit_return_no_value (declared_return_type : String) : Except String Node :=
  if "return_type" ∈ function_translator_attrs then
    if declared_return_type = "array" then .ok (.Return (some (.ArrayLiteral [])))
    else if declared_return_type = "uint" then .ok (.Return (some (.UIntLiteral 0)))
    else .error "AttributeError: Append"
  else .error "AttributeError: return_type"

/-- C7 (refuted as stated — code bug): a bare `return` fails for every
declared return type: the lowering reads the nonexistent attribute
`return_type` (the value stored by `__init__` is `_return_type`), so none
of the three synthesis cases is reached. -/
theorem C7_bare_return_raises :
    ∀ declared_return_type : String,
      visit_return_no_value declared_return_type =
        Except.error "AttributeError: return_type" := by
  intro rt
  unfold visit_return_no_value
  rw [if_neg]
  intro hmem
  simp [function_translator_attrs] at hmem

/-! ## compiler.py: the software call stack -/

/-- The UM state the stack macros touch: the STACK array and the STACK_TOP
register. -/
structure StackState : Type where
  stack : Nat → Nat
  stack_top : Nat

/-- Modelled from the spec: the `Push` IR macro that `Context.push`
(compiler.py lines 92–93) builds is absent from instructions.py; per §4.6,
`Push R` stores R at `STACK[STACK_TOP]` and then increments `STACK_TOP`
(an UM `Addition`, hence modulo `2^32`). -/
def push_sem (v : Nat) (s : StackState) : StackState :=
  { stack := Function.update s.stack s.stack_top v,
    stack_top := (s.stack_top + 1) % 2 ^ 32 }

/-- Modelled from the spec: the `Pop` IR macro that `Context.pop`
(compiler.py lines 95–96) builds is absent from instructions.py; per §4.6,
`Pop R` decrements `STACK_TOP` by adding `2^32 - 1` modulo `2^32` and then
reads `STACK[STACK_TOP]` into R. -/
def pop_sem (s : StackState) : StackState × Nat :=
  let t := (s.stack_top + (2 ^ 32 - 1)) % 2 ^ 32
  ({ stack := s.stack, stack_top := t }, s.stack t)

/-- A push or pop emitted by codegen. -/
inductive StackOp : Type
  | push
  | pop
  deriving DecidableEq

def count_op (o : StackOp) (l : List StackOp) : Nat :=
  l.count o

/-- The pushes performed by `_call` (compiler.py lines 156–198): push the
caller's LOCALS (line 162), push the caller's code array resolved from the
PIC table (lines 164–171), push each evaluated argument in reverse order
(lines 174–176), push the resume address (lines 191–195). -/
def call_stack_ops (nargs : Nat) : List StackOp :=
  [.push, .push] ++ List.replicate nargs .push ++ [.push]

/-- The callee prologue of `_compile_function_def` (compiler.py lines
118–130): when the function has arguments, pop the return address, pop
each argument into LOCALS, push the return address back. -/
def prologue_stack_ops (nargs : Nat) : List StackOp :=
  if nargs = 0 then [] else [.pop] ++ List.replicate nargs .pop ++ [.push]

/-- The callee epilogue (compiler.py lines 135–148): `main` halts; any
other function pops the return address, the return code array and the
saved LOCALS. -/
def epilogue_stack_ops (is_main : Bool) : List StackOp :=
  if is_main then [] else [.pop, .pop, .pop]

/-- C3.  `Push R` stores R at `STACK[STACK_TOP]` then increments
`STACK_TOP`; `Pop R` decrements `STACK_TOP` (by adding `2^32 - 1` modulo
`2^32`) then reads `STACK[STACK_TOP]`, so a pop right after a push
restores `STACK_TOP` and reads back the pushed value; and the push/pop
sequence of a call to a non-main function — call site, callee prologue,
callee epilogue — is balanced for every argument count. -/
theorem C3_push_pop_macros :
    (∀ (s : StackState) (v : Nat), s.stack_top < 2 ^ 32 →
        pop_sem (push_sem v s) =
          ({ stack := Function.update s.stack s.stack_top v,
              stack_top := s.stack_top }, v)) ∧
      ∀ nargs : Nat,
        count_op .push (call_stack_ops nargs ++ prologue_stack_ops nargs ++
            epilogue_stack_ops false) =
          count_op .pop (call_stack_ops nargs ++ prologue_stack_ops nargs ++
            epilogue_stack_ops false) := by
  constructor
  · intro s v htop
    unfold push_sem pop_sem
    have hmod : ((s.stack_top + 1) % 2 ^ 32 + (2 ^ 32 - 1)) % 2 ^ 32 = s.stack_top := by
      omega
    simp only [hmod]
    rw [hmod, Function.update_same]
  · intro nargs
    unfold count_op call_stack_ops prologue_stack_ops epilogue_stack_ops
    by_cases h : nargs = 0
    · subst h
      rfl
    · rw [if_neg h, if_neg (by simp)]
      simp [List.count_append, List.count_cons, List.count_replicate]

/-- Witness for C3: the push/pop round trip at a concrete state, and the
balance of a two-argument call. -/
theorem C3_push_pop_macros_witness :
    pop_sem (push_sem 7 { stack := fun _ => 0, stack_top := 1 }) =
        ({ stack := Function.update (fun _ => 0) 1 7, stack_top := 1 }, 7) ∧
      count_op .push (call_stack_ops 2 ++ prologue_stack_ops 2 ++
          epilogue_stack_ops false) =
        count_op .pop (call_stack_ops 2 ++ prologue_stack_ops 2 ++
          epilogue_stack_ops false) :=
  ⟨C3_push_pop_macros.1 { stack := fun _ => 0, stack_top := 1 } 7 (by norm_num),
    C3_push_pop_macros.2 2⟩

/-! ## compiler.py: the register allocator -/

/-- An occupation site: the `(filename, line)` pair captured from the
caller's frame at `occupy()` time (compiler.py lines 57–58). -/
abbrev Site : Type := String × Nat

/-- The observable state of a `RegisterAllocator`: the free pool
`_registers` and the recorded sites `_given_out`. -/
structure RegAllocState : Type where
  registers : List Nat
  given_out : List Site

/-- Embedding of `RegisterAllocator.__init__` (compiler.py lines 38–40):
the pool starts as `[ax, bx, cx, dx] = [0, 1, 2, 3]` and no site is
recorded. -/
def reg_allocator_init : RegAllocState :=
  { registers := [0, 1, 2, 3], given_out := [] }

/-- Embedding of `RegisterAllocator.occupy` (compiler.py lines 48–59):
`self._registers.pop()` takes the LAST pool element; on an empty pool the
ValueError diagnostic carries `_given_out` (the recorded sites, in order);
on success the caller's site is appended to `_given_out` and the handle
wraps the popped register. -/
def occupy (s : RegAllocState) (site : Site) :
    Except (List Site) (RegAllocState × Nat) :=
  match s.registers.getLast? with
  | none => .error s.given_out
  | some r =>
    .ok ({ registers := s.registers.dropLast, given_out := s.given_out ++ [site] }, r)

/-- Embedding of `OccupiedRegister.release` (compiler.py lines 26–28):
`self._allocator._given_out.pop()` discards the MOST RECENTLY recorded
site — whichever handle is being released — and the handle's underlying
register is appended back to the pool. -/
def release (s : RegAllocState) (r : Nat) : RegAllocState :=
  { registers := s.registers ++ [r], given_out := s.given_out.dropLast }

/-- An allocator interaction; `release` releases the most recently
occupied outstanding handle (the LIFO discipline of scoped `with` usage). -/
inductive AllocOp : Type
  | occupy (site : Site)
  | release

/-- One LIFO step over the allocator: the auxiliary list carries the
outstanding handles, most recent first, as (site, register) pairs. -/
def step_alloc (st : RegAllocState × List (Site × Nat)) (op : AllocOp) :
    Option (RegAllocState × List (Site × Nat)) :=
  match op with
  | .occupy site =>
    match occupy st.1 site with
    | .error _ => none
    | .ok (s2, r) => some (s2, (site, r) :: st.2)
  | .release =>
    match st.2 with
    | [] => none
    | h :: rest => some (release st.1 h.2, rest)

def exec_from (st : RegAllocState × List (Site × Nat)) :
    List AllocOp → Option (RegAllocState × List (Site × Nat))
  | [] => some st
  | op :: rest =>
    match step_alloc st op with
    | none => none
    | some st2 => exec_from st2 rest

/-- Run a LIFO trace from the freshly initialized allocator. -/
def exec_lifo (t : List AllocOp) : Option (RegAllocState × List (Site × Nat)) :=
  exec_from (reg_allocator_init, []) t

/-- The allocator invariant: the free pool followed by the outstanding
registers is exactly the initial pool, and the recorded sites are the
outstanding handles' sites in occupation order. -/
def alloc_inv (st : RegAllocState × List (Site × Nat)) : Prop :=
  st.1.registers ++ st.2.map Prod.snd = [0, 1, 2, 3] ∧
    st.1.given_out = (st.2.map Prod.fst).reverse

theorem getLast?_some_decomp {l : List Nat} {r : Nat} (h : l.getLast? = some r) :
    l.dropLast ++ [r] = l := by
  rcases List.eq_nil_or_concat l with hnil | ⟨l2, a, hcat⟩
  · rw [hnil] at h
    cases h
  · subst hcat
    rw [List.concat_eq_append] at h ⊢
    rw [List.getLast?_concat] at h
    rcases (Option.some.injEq _ _).mp h with rfl
    rw [List.dropLast_concat]

theorem occupy_ok {s : RegAllocState} {site : Site} {s2 : RegAllocState} {r : Nat}
    (h : occupy s site = .ok (s2, r)) :
    s.registers.getLast? = some r ∧
      s2 = { registers := s.registers.dropLast,
             given_out := s.given_out ++ [site] } := by
  unfold occupy at h
  split at h
  · cases h
  · rename_i r2 hlast
    simp only [Except.ok.injEq, Prod.mk.injEq] at h
    obtain ⟨h1, h2⟩ := h
    subst h2
    exact ⟨hlast, h1.symm⟩

theorem step_alloc_inv {st st2 : RegAllocState × List (Site × Nat)}
    {op : AllocOp} (hstep : step_alloc st op = some st2)
    (hinv : alloc_inv st) : alloc_inv st2 := by
  obtain ⟨hreg, hsite⟩ := hinv
  cases op with
  | occupy site =>
    simp only [step_alloc] at hstep
    split at hstep
    · cases hstep
    · rename_i s2 r heq
      rcases (Option.some.injEq _ _).mp hstep with rfl
      obtain ⟨hlast, hs2⟩ := occupy_ok heq
      have hdecomp := getLast?_some_decomp hlast
      constructor
      · show s2.registers ++ ((site, r) :: st.2).map Prod.snd = _
        rw [hs2, List.map_cons]
        calc st.1.registers.dropLast ++ r :: st.2.map Prod.snd
            = (st.1.registers.dropLast ++ [r]) ++ st.2.map Prod.snd := by
              rw [List.append_assoc]
              rfl
          _ = st.1.registers ++ st.2.map Prod.snd := by rw [hdecomp]
          _ = [0, 1, 2, 3] := hreg
      · show s2.given_out = (((site, r) :: st.2).map Prod.fst).reverse
        rw [hs2, List.map_cons, List.reverse_cons, hsite]
  | release =>
    simp only [step_alloc] at hstep
    split at hstep
    · cases hstep
    · rename_i h rest heq
      rcases (Option.some.injEq _ _).mp hstep with rfl
      constructor
      · show (st.1.registers ++ [h.2]) ++ rest.map Prod.snd = _
        rw [heq, List.map_cons] at hreg
        rw [List.append_assoc]
        rw [← hreg]
        rfl
      · show st.1.given_out.dropLast = (rest.map Prod.fst).reverse
        rw [heq, List.map_cons, List.reverse_cons] at hsite
        rw [hsite, List.dropLast_concat]

theorem exec_from_inv :
    ∀ (t : List AllocOp) (st st2 : RegAllocState × List (Site × Nat)),
      exec_from st t = some st2 → alloc_inv st → alloc_inv st2 := by
  intro t
  induction t with
  | nil =>
    intro st st2 hrun hinv
    unfold exec_from at hrun
    rcases (Option.some.injEq _ _).mp hrun with rfl
    exact hinv
  | cons op rest ih =>
    intro st st2 hrun hinv
    unfold exec_from at hrun
    split at hrun
    · cases hrun
    · rename_i stm hstep
      exact ih stm st2 hrun (step_alloc_inv hstep hinv)

/-- C9 as amended: the pool starts as exactly the four scratch registers
`[ax, bx, cx, dx]`; releasing the handle returned by an `occupy` puts that
same register back, restoring the allocator state; and along any trace
whose releases follow the LIFO scope discipline, the recorded sites are
exactly the occupation sites of the currently outstanding handles, so when
all 4 registers are outstanding a fifth `occupy` fails with a diagnostic
naming exactly those handles' sites in occupation order. -/
theorem C9_allocator_diagnostic_lifo :
    reg_allocator_init.registers = [0, 1, 2, 3] ∧
      (∀ (s : RegAllocState) (site : Site) (s2 : RegAllocState) (r : Nat),
        occupy s site = .ok (s2, r) → release s2 r = s) ∧
      ∀ (t : List AllocOp) (s : RegAllocState) (out : List (Site × Nat)),
        exec_lifo t = some (s, out) →
        s.registers ++ out.map Prod.snd = [0, 1, 2, 3] ∧
          s.given_out = (out.map Prod.fst).reverse ∧
          (out.length = 4 → ∀ site : Site,
            occupy s site = .error ((out.map Prod.fst).reverse)) := by
  refine ⟨rfl, ?_, ?_⟩
  · intro s site s2 r hocc
    obtain ⟨hlast, hs2⟩ := occupy_ok hocc
    have hdecomp := getLast?_some_decomp hlast
    rw [hs2]
    unfold release
    show ({ registers := s.registers.dropLast ++ [r],
            given_out := (s.given_out ++ [site]).dropLast } : RegAllocState) = s
    rw [List.dropLast_concat, hdecomp]
  · intro t s out hrun
    have hinv : alloc_inv (s, out) :=
      exec_from_inv t (reg_allocator_init, []) (s, out) hrun ⟨rfl, rfl⟩
    obtain ⟨hreg, hsite⟩ := hinv
    refine ⟨hreg, hsite, ?_⟩
    intro hlen site
    have hempty : s.registers = [] := by
      have hlens := congrArg List.length hreg
      simp [hlen] at hlens
      exact hlens
    unfold occupy
    rw [hempty, hsite]
    rfl

/-- Witness for C9: releasing an occupied register restores the initial
state, and after four occupations the fifth fails naming all four sites. -/
theorem C9_allocator_diagnostic_lifo_witness :
    release { registers := [0, 1, 2], given_out := [("a.py", 9)] } 3 =
        reg_allocator_init ∧
      occupy { registers := [],
               given_out := [("a.py", 1), ("a.py", 2), ("a.py", 3), ("a.py", 4)] }
        ("a.py", 5) =
        .error [("a.py", 1), ("a.py", 2), ("a.py", 3), ("a.py", 4)] := by
  constructor
  · exact C9_allocator_diagnostic_lifo.2.1 reg_allocator_init ("a.py", 9)
      { registers := [0, 1, 2], given_out := [("a.py", 9)] } 3 rfl
  · have h := (C9_allocator_diagnostic_lifo.2.2
      [.occupy ("a.py", 1), .occupy ("a.py", 2), .occupy ("a.py", 3),
        .occupy ("a.py", 4)]
      { registers := [],
        given_out := [("a.py", 1), ("a.py", 2), ("a.py", 3), ("a.py", 4)] }
      [(("a.py", 4), 0), (("a.py", 3), 1), (("a.py", 2), 2), (("a.py", 1), 3)]
      rfl).2.2 rfl ("a.py", 5)
    simpa using h

/-- C9 counterexample to the claim as stated: a non-LIFO release.  Occupy at
sites 1 and 2, release the FIRST handle (register 3, occupied at site 1) —
`release` discards the most recent record, site 2 — then occupy at sites 3,
4, 5.  All four registers are outstanding (the handles occupied at sites 2,
3, 4, 5), yet the failing sixth `occupy` reports sites 1, 3, 4, 5: it names
the already-released site 1 and omits site 2, whose handle is still
outstanding. -/
theorem C9_allocator_diagnostic_counterexample :
    occupy reg_allocator_init ("f.py", 1) =
        .ok ({ registers := [0, 1, 2], given_out := [("f.py", 1)] }, 3) ∧
      occupy { registers := [0, 1, 2], given_out := [("f.py", 1)] } ("f.py", 2) =
        .ok ({ registers := [0, 1], given_out := [("f.py", 1), ("f.py", 2)] }, 2) ∧
      release { registers := [0, 1], given_out := [("f.py", 1), ("f.py", 2)] } 3 =
        { registers := [0, 1, 3], given_out := [("f.py", 1)] } ∧
      occupy { registers := [0, 1, 3], given_out := [("f.py", 1)] } ("f.py", 3) =
        .ok ({ registers := [0, 1], given_out := [("f.py", 1), ("f.py", 3)] }, 3) ∧
      occupy { registers := [0, 1], given_out := [("f.py", 1), ("f.py", 3)] }
          ("f.py", 4) =
        .ok ({ registers := [0],
               given_out := [("f.py", 1), ("f.py", 3), ("f.py", 4)] }, 1) ∧
      occupy { registers := [0],
               given_out := [("f.py", 1), ("f.py", 3), ("f.py", 4)] } ("f.py", 5) =
        .ok ({ registers := [],
               given_out := [("f.py", 1), ("f.py", 3), ("f.py", 4), ("f.py", 5)] }, 0) ∧
      occupy { registers := [],
               given_out := [("f.py", 1), ("f.py", 3), ("f.py", 4), ("f.py", 5)] }
        ("f.py", 6) =
        .error [("f.py", 1), ("f.py", 3), ("f.py", 4), ("f.py", 5)] ∧
      (("f.py", 2) : Site) ∉
        [(("f.py", 1) : Site), ("f.py", 3), ("f.py", 4), ("f.py", 5)] := by
  refine ⟨rfl, rfl, rfl, rfl, rfl, rfl, rfl, ?_⟩
  simp

end Um
